import Mathlib

/-!
# Convergence diagnostics of the model-checking notebook

A shallow embedding of the convergence-diagnostic calculators described by
the repository: the Gelman-Rubin potential-scale-reduction statistic, the
Geweke z-score calculator, and the notebook's `invlogit` helper.

The notebook itself invokes `gelman_rubin` and `geweke` from the upstream
probabilistic-programming library; the repository contains the defining
formulas (quoted in the notebook's prose) and the calling code, but not the
library bodies.  The calculators are therefore modelled from the spec,
faithfully to the formulas the notebook quotes.  Samples are real numbers,
matching the idealised real arithmetic of the formulas.
-/

namespace ModelChecking

/-- Mean of a list of reals: sum divided by length (0 for the empty list). -/
noncomputable def mean (l : List ℝ) : ℝ := l.sum / l.length

/-- Modelled from the spec: sample variance of one chain with denominator
n − 1, as in the notebook's formula for the within-chain variance
`(1/(n-1)) Σ (θ_ij − θ̄_.j)²`. -/
noncomputable def sampleVariance (l : List ℝ) : ℝ :=
  (l.map (fun x => (x - mean l) ^ 2)).sum / ((l.length : ℝ) - 1)

/-- The common chain length n of a ChainSet (length of its first chain). -/
def chainLen (cs : List (List ℝ)) : ℕ := (cs.headD []).length

/-- Modelled from the spec: W, the within-chain variance — the mean over the
m chains of each chain's sample variance (denominator n − 1). -/
noncomputable def W (cs : List (List ℝ)) : ℝ := mean (cs.map sampleVariance)

/-- Grand mean θ̄_..: the mean of the m chain means. -/
noncomputable def grandMean (cs : List (List ℝ)) : ℝ := mean (cs.map mean)

/-- Modelled from the spec: B, the between-chain variance —
`[n/(m−1)] × Σ_j (θ̄_.j − θ̄_..)²`. -/
noncomputable def B (cs : List (List ℝ)) : ℝ :=
  ((chainLen cs : ℝ) / ((cs.length : ℝ) - 1)) *
    (cs.map (fun c => (mean c - grandMean cs) ^ 2)).sum

/-- Modelled from the spec: the marginal-posterior variance estimate
`Var-hat = ((n−1)/n) W + (1/n) B`. -/
noncomputable def varHat (cs : List (List ℝ)) : ℝ :=
  (((chainLen cs : ℝ) - 1) / (chainLen cs : ℝ)) * W cs +
    (1 / (chainLen cs : ℝ)) * B cs

/-- Modelled from the spec: the Gelman-Rubin potential scale reduction
`R-hat = sqrt(Var-hat / W)`.  The library body is not in the repository;
this follows the formulas the notebook quotes and the spec restates. -/
noncomputable def gelman_rubin (cs : List (List ℝ)) : ℝ :=
  Real.sqrt (varHat cs / W cs)

/-- The spec's error taxonomy for the diagnostic calculators. -/
inductive DiagError where
  | invalidInput
  | undefinedDiagnostic
deriving DecidableEq

/-- Shape validation for a ChainSet: at least two chains, common length at
least two, and every chain of that common length. -/
def validShape (cs : List (List ℝ)) : Bool :=
  decide (2 ≤ cs.length) && decide (2 ≤ chainLen cs) &&
    cs.all (fun l => l.length == chainLen cs)

open Classical in
/-- Modelled from the spec: the defensively validated Gelman-Rubin
calculator.  It rejects malformed shapes with `InvalidInput`, reports the
degenerate zero within-chain-variance case as `UndefinedDiagnostic`, and
otherwise returns R-hat.  (In this real-number embedding every sample is a
finite real, so the spec's non-finite-sample rejection is vacuous.) -/
noncomputable def gelman_rubin_checked (cs : List (List ℝ)) :
    Except DiagError ℝ :=
  if validShape cs then
    if W cs = 0 then .error .undefinedDiagnostic
    else .ok (gelman_rubin cs)
  else .error .invalidInput

/-- Modelled from the spec: the Geweke z-score calculator for one chain.
The spec leaves the spectral-density-at-zero estimator to the implementer,
so the estimator `S` is a parameter.  For chain `x` of length n, the late
segment is the final fraction `lastFrac` of the chain; over `intervals`
evenly spaced starting points `s` from 0 to n − ⌊lastFrac·n⌋ − ⌊firstFrac·n⌋,
the early segment is the window of ⌊firstFrac·n⌋ samples starting at `s`,
and the z-score is the difference of the segment means divided by the
square root of the sum of the two segments' spectral densities at zero. -/
noncomputable def geweke (S : List ℝ → ℝ) (firstFrac lastFrac : ℝ)
    (intervals : ℕ) (x : List ℝ) : List (ℕ × ℝ) :=
  let n := x.length
  let eLen := ⌊firstFrac * (n : ℝ)⌋₊
  let lateStart := n - ⌊lastFrac * (n : ℝ)⌋₊
  let lateSeg := x.drop lateStart
  let maxStart := lateStart - eLen
  (List.range intervals).map (fun k =>
    let s := k * maxStart / (intervals - 1)
    let earlySeg := (x.drop s).take eLen
    (s, (mean earlySeg - mean lateSeg) /
      Real.sqrt (S earlySeg + S lateSeg)))

open Classical in
/-- Modelled from the spec: the defensively validated Geweke calculator.
It rejects with `InvalidInput` a segment fraction that is non-positive or
exceeds 1, and an early or late segment that would be empty for the given
chain length; otherwise it returns the z-score sequence. -/
noncomputable def geweke_checked (S : List ℝ → ℝ) (firstFrac lastFrac : ℝ)
    (intervals : ℕ) (x : List ℝ) : Except DiagError (List (ℕ × ℝ)) :=
  if firstFrac ≤ 0 ∨ lastFrac ≤ 0 ∨ 1 < firstFrac ∨ 1 < lastFrac ∨
      ⌊firstFrac * (x.length : ℝ)⌋₊ = 0 ∨ ⌊lastFrac * (x.length : ℝ)⌋₊ = 0 then
    .error .invalidInput
  else .ok (geweke S firstFrac lastFrac intervals x)

/-- The notebook's `invlogit` helper (source: `def invlogit(x): return
exp(x) / (1 + exp(x))`), with the library's elementwise `exp` read as the
real exponential. -/
noncomputable def invlogit (x : ℝ) : ℝ := Real.exp x / (1 + Real.exp x)

/-- A ChainSet with the constant c added to every sample of every chain. -/
noncomputable def shiftCS (cs : List (List ℝ)) (c : ℝ) : List (List ℝ) :=
  cs.map (fun l => l.map (fun x => x + c))

/-! ## Helper lemmas -/

lemma sum_map_add (l : List ℝ) (c : ℝ) :
    (l.map (fun x => x + c)).sum = l.sum + l.length * c := by
  induction l with
  | nil => simp
  | cons a t ih => simp [ih]; ring

lemma mean_map_add (l : List ℝ) (c : ℝ) (h : l ≠ []) :
    mean (l.map (fun x => x + c)) = mean l + c := by
  have hl : (l.length : ℝ) ≠ 0 := by
    have := List.length_pos.mpr h
    positivity
  simp only [mean, List.length_map, sum_map_add]
  field_simp
  ring

lemma sampleVariance_map_add (l : List ℝ) (c : ℝ) :
    sampleVariance (l.map (fun x => x + c)) = sampleVariance l := by
  rcases eq_or_ne l [] with rfl | h
  · simp
  · simp only [sampleVariance, List.length_map, mean_map_add l c h, List.map_map]
    congr 2
    apply List.map_congr_left
    intro x _
    simp only [Function.comp_apply]
    ring

lemma mean_perm {l₁ l₂ : List ℝ} (h : l₁.Perm l₂) : mean l₁ = mean l₂ := by
  simp only [mean, h.sum_eq, h.length_eq]

lemma chainLen_shift (cs : List (List ℝ)) (c : ℝ) :
    chainLen (shiftCS cs c) = chainLen cs := by
  cases cs with
  | nil => simp [shiftCS, chainLen]
  | cons h t => simp [shiftCS, chainLen]

lemma W_shift (cs : List (List ℝ)) (c : ℝ) : W (shiftCS cs c) = W cs := by
  simp only [W, shiftCS, List.map_map]
  congr 1
  apply List.map_congr_left
  intro l _
  simpa using sampleVariance_map_add l c

lemma map_mean_shift (cs : List (List ℝ)) (c : ℝ) (hne : ∀ l ∈ cs, l ≠ []) :
    (shiftCS cs c).map mean = (cs.map mean).map (fun x => x + c) := by
  simp only [shiftCS, List.map_map]
  apply List.map_congr_left
  intro l hl
  simpa using mean_map_add l c (hne l hl)

lemma grandMean_shift (cs : List (List ℝ)) (c : ℝ) (hcs : cs ≠ [])
    (hne : ∀ l ∈ cs, l ≠ []) :
    grandMean (shiftCS cs c) = grandMean cs + c := by
  rw [grandMean, map_mean_shift cs c hne, mean_map_add _ c (by simpa using hcs)]
  rfl

lemma B_shift (cs : List (List ℝ)) (c : ℝ) (hcs : cs ≠ [])
    (hne : ∀ l ∈ cs, l ≠ []) : B (shiftCS cs c) = B cs := by
  have hlen : (shiftCS cs c).length = cs.length := by simp [shiftCS]
  have hg := grandMean_shift cs c hcs hne
  have hsum : ((shiftCS cs c).map
      (fun l => (mean l - grandMean (shiftCS cs c)) ^ 2)).sum
      = (cs.map (fun l => (mean l - grandMean cs) ^ 2)).sum := by
    rw [hg]
    simp only [shiftCS, List.map_map]
    apply congrArg
    apply List.map_congr_left
    intro l hl
    simp only [Function.comp_apply]
    rw [mean_map_add l c (hne l hl)]
    ring
  rw [B, B, hsum, hlen, chainLen_shift]

lemma gelman_rubin_shift (cs : List (List ℝ)) (c : ℝ) (hcs : cs ≠ [])
    (hne : ∀ l ∈ cs, l ≠ []) :
    gelman_rubin (shiftCS cs c) = gelman_rubin cs := by
  simp only [gelman_rubin, varHat, chainLen_shift, W_shift, B_shift cs c hcs hne]

lemma chainLen_perm {cs₁ cs₂ : List (List ℝ)} (hp : cs₁.Perm cs₂)
    (hlen : ∀ l ∈ cs₁, l.length = chainLen cs₁) :
    chainLen cs₂ = chainLen cs₁ := by
  cases cs₂ with
  | nil =>
    have : cs₁ = [] := hp.eq_nil
    simp [this]
  | cons h t =>
    have hmem : h ∈ cs₁ := hp.mem_iff.mpr (by simp)
    simpa [chainLen] using hlen h hmem

lemma W_perm {cs₁ cs₂ : List (List ℝ)} (hp : cs₁.Perm cs₂) :
    W cs₂ = W cs₁ :=
  mean_perm ((hp.map sampleVariance).symm)

lemma grandMean_perm {cs₁ cs₂ : List (List ℝ)} (hp : cs₁.Perm cs₂) :
    grandMean cs₂ = grandMean cs₁ :=
  mean_perm ((hp.map mean).symm)

lemma B_perm {cs₁ cs₂ : List (List ℝ)} (hp : cs₁.Perm cs₂)
    (hlen : ∀ l ∈ cs₁, l.length = chainLen cs₁) :
    B cs₂ = B cs₁ := by
  rw [B, B, chainLen_perm hp hlen, hp.length_eq, grandMean_perm hp,
    (hp.map (fun c => (mean c - grandMean cs₁) ^ 2)).sum_eq]

lemma mean_replicate (m : ℕ) (x : ℝ) (hm : 1 ≤ m) :
    mean (List.replicate m x) = x := by
  have : (m : ℝ) ≠ 0 := by positivity
  simp [mean, List.sum_replicate, nsmul_eq_mul]
  field_simp

lemma B_nonneg (cs : List (List ℝ)) (hm : 1 ≤ cs.length) : 0 ≤ B cs := by
  apply mul_nonneg
  · apply div_nonneg (by positivity)
    have : (1 : ℝ) ≤ (cs.length : ℝ) := by exact_mod_cast hm
    linarith
  · apply List.sum_nonneg
    intro x hx
    obtain ⟨c, _, rfl⟩ := List.mem_map.mp hx
    positivity

lemma gelman_rubin_strict_mono (cs₁ cs₂ : List (List ℝ))
    (hn : chainLen cs₁ = chainLen cs₂) (hn2 : 2 ≤ chainLen cs₁)
    (hWeq : W cs₁ = W cs₂) (hWpos : 0 < W cs₁)
    (hB1 : 0 ≤ B cs₁) (hBlt : B cs₁ < B cs₂) :
    gelman_rubin cs₁ < gelman_rubin cs₂ := by
  have hnpos : (0 : ℝ) < (chainLen cs₁ : ℝ) := by
    have : (2 : ℝ) ≤ (chainLen cs₁ : ℝ) := by exact_mod_cast hn2
    linarith
  have hn1 : (0 : ℝ) ≤ ((chainLen cs₁ : ℝ) - 1) / (chainLen cs₁ : ℝ) := by
    apply div_nonneg _ hnpos.le
    have : (2 : ℝ) ≤ (chainLen cs₁ : ℝ) := by exact_mod_cast hn2
    linarith
  apply Real.sqrt_lt_sqrt
  · apply div_nonneg _ hWpos.le
    rw [varHat]
    have : (0 : ℝ) ≤ 1 / (chainLen cs₁ : ℝ) := by positivity
    nlinarith [hWpos.le]
  · rw [← hWeq]
    apply (div_lt_div_iff_of_pos_right hWpos).mpr
    rw [varHat, varHat, ← hn, ← hWeq]
    have hlt : (1 / (chainLen cs₁ : ℝ)) * B cs₁ <
        (1 / (chainLen cs₁ : ℝ)) * B cs₂ := by
      apply mul_lt_mul_of_pos_left hBlt
      positivity
    linarith

lemma validShape_iff (cs : List (List ℝ)) :
    validShape cs = true ↔
      2 ≤ cs.length ∧ 2 ≤ chainLen cs ∧ ∀ l ∈ cs, l.length = chainLen cs := by
  simp [validShape, List.all_eq_true, and_assoc]

/-! ## Claim theorems -/

/-- Claim C1: for every ChainSet of m ≥ 2 chains, each of length n ≥ 2 of
finite reals, the Gelman-Rubin calculator returns sqrt(Var-hat / W), where
W is the mean over the m chains of each chain's sample variance with
denominator n−1, B is [n/(m−1)] times the sum over chains of the squared
difference between the chain mean and the grand mean, and
Var-hat = ((n−1)/n)·W + (1/n)·B. -/
theorem gelman_rubin_matches_formula (cs : List (List ℝ)) (m n : ℕ)
    (hm : cs.length = m) (hm2 : 2 ≤ m) (hn : chainLen cs = n) (hn2 : 2 ≤ n)
    (hlen : ∀ l ∈ cs, l.length = n) :
    gelman_rubin cs = Real.sqrt (varHat cs / W cs) ∧
    W cs = (cs.map (fun ch =>
      ((ch.map (fun x => (x - ch.sum / (n : ℝ)) ^ 2)).sum) / ((n : ℝ) - 1))).sum
        / (m : ℝ) ∧
    B cs = ((n : ℝ) / ((m : ℝ) - 1)) * (cs.map (fun ch =>
      (ch.sum / (n : ℝ) -
        (cs.map (fun c2 => c2.sum / (n : ℝ))).sum / (m : ℝ)) ^ 2)).sum ∧
    varHat cs = (((n : ℝ) - 1) / (n : ℝ)) * W cs + (1 / (n : ℝ)) * B cs := by
  have hmean : ∀ ch ∈ cs, mean ch = ch.sum / (n : ℝ) := by
    intro ch hch
    rw [mean, hlen ch hch]
  refine ⟨rfl, ?_, ?_, ?_⟩
  · rw [W, mean, List.length_map, hm]
    congr 2
    apply List.map_congr_left
    intro ch hch
    rw [sampleVariance, hlen ch hch, hmean ch hch]
  · rw [B, hn, hm]
    congr 1
    have hgm : grandMean cs =
        (cs.map (fun c2 => c2.sum / (n : ℝ))).sum / (m : ℝ) := by
      rw [grandMean, mean, List.length_map, hm]
      congr 2
      exact List.map_congr_left hmean
    apply congrArg
    apply List.map_congr_left
    intro ch hch
    rw [hmean ch hch, hgm]
  · rw [varHat, hn]

/-- Witness for C1: the formula decomposition at the concrete ChainSet
[[1,2,3],[2,3,4]] with m = 2, n = 3. -/
theorem gelman_rubin_matches_formula_witness :
    gelman_rubin [[(1:ℝ),2,3],[2,3,4]] =
      Real.sqrt (varHat [[(1:ℝ),2,3],[2,3,4]] / W [[(1:ℝ),2,3],[2,3,4]]) :=
  (gelman_rubin_matches_formula [[(1:ℝ),2,3],[2,3,4]] 2 3 rfl (by norm_num)
    rfl (by norm_num) (by
      intro l hl
      rcases List.mem_cons.mp hl with rfl | hl
      · rfl
      · rcases List.mem_cons.mp hl with rfl | hl
        · rfl
        · simp at hl)).1

/-- Counterexample to claim C2: for the ChainSet of two identical chains
[1,2,3] and [1,2,3], the Gelman-Rubin calculator does not return 1.0 (it
returns sqrt(2/3), because B = 0 makes Var-hat = ((n−1)/n)·W < W). -/
theorem gelman_rubin_identical_not_one :
    gelman_rubin [[(1:ℝ),2,3],[1,2,3]] ≠ 1 := by
  have h : gelman_rubin [[(1:ℝ),2,3],[1,2,3]] = Real.sqrt (2/3) := by
    norm_num [gelman_rubin, varHat, W, B, mean, sampleVariance, grandMean,
      chainLen]
  rw [h, Ne, Real.sqrt_eq_one]
  norm_num

/-- Claim C2 as amended: for every ChainSet of m ≥ 2 identical chains of
length n ≥ 2 with nonzero within-chain variance, the Gelman-Rubin
calculator returns sqrt((n−1)/n) — strictly below 1 and tending to 1 as
n → ∞ — not exactly 1.0; for m = 2 chains [1,2,3] it returns sqrt(2/3). -/
theorem gelman_rubin_identical_chains (m : ℕ) (ch : List ℝ) (hm : 2 ≤ m)
    (hn : 2 ≤ ch.length) (hW : sampleVariance ch ≠ 0) :
    gelman_rubin (List.replicate m ch) =
      Real.sqrt (((ch.length : ℝ) - 1) / (ch.length : ℝ)) := by
  have hm1 : 1 ≤ m := le_trans (by norm_num) hm
  have hW' : W (List.replicate m ch) = sampleVariance ch := by
    rw [W, List.map_replicate, mean_replicate m _ hm1]
  have hgm : grandMean (List.replicate m ch) = mean ch := by
    rw [grandMean, List.map_replicate, mean_replicate m _ hm1]
  have hB : B (List.replicate m ch) = 0 := by
    rw [B, hgm, List.map_replicate]
    simp
  have hcl : chainLen (List.replicate m ch) = ch.length := by
    cases m with
    | zero => omega
    | succ k => simp [chainLen, List.replicate]
  rw [gelman_rubin, varHat, hW', hB, hcl]
  congr 1
  rw [mul_zero, add_zero, div_mul_eq_mul_div, div_div]
  exact mul_div_mul_right _ _ hW

/-- Witness for amended C2: two identical chains [1,2,3] give
R-hat = sqrt((3−1)/3) = sqrt(2/3). -/
theorem gelman_rubin_identical_chains_witness :
    gelman_rubin (List.replicate 2 [(1:ℝ),2,3]) =
      Real.sqrt ((([(1:ℝ),2,3].length : ℝ) - 1) / ([(1:ℝ),2,3].length : ℝ)) :=
  gelman_rubin_identical_chains 2 [(1:ℝ),2,3] (by norm_num) (by norm_num)
    (by norm_num [sampleVariance, mean])

/-- Claim C3: the validated Gelman-Rubin calculator fails with InvalidInput
exactly when there are fewer than two chains, some chain is shorter than
two samples, or two chains have unequal lengths.  (Every sample of this
real-number embedding is a finite real, so the spec's non-finite-sample
condition cannot fire.)  The calculator is a pure function into `Except`,
so the error is the whole result: no partial value accompanies it. -/
theorem gelman_rubin_checked_invalid_iff (cs : List (List ℝ)) :
    gelman_rubin_checked cs = .error .invalidInput ↔
      (cs.length < 2 ∨ (∃ l ∈ cs, l.length < 2) ∨
        (∃ l₁ ∈ cs, ∃ l₂ ∈ cs, l₁.length ≠ l₂.length)) := by
  rcases hv : validShape cs with hfalse | htrue
  · have hlhs : gelman_rubin_checked cs = .error .invalidInput := by
      rw [gelman_rubin_checked, hv]
      simp
    rw [hlhs]
    simp only [true_iff]
    by_contra hcon
    push_neg at hcon
    obtain ⟨h2, hsmall, hmm⟩ := hcon
    have h2' : 2 ≤ cs.length := by omega
    have hcs : cs ≠ [] := by
      intro he
      rw [he] at h2'
      simp at h2'
    obtain ⟨hd, tl, rfl⟩ := List.exists_cons_of_ne_nil hcs
    have hhd : chainLen (hd :: tl) = hd.length := rfl
    have : validShape (hd :: tl) = true := by
      rw [validShape_iff]
      refine ⟨h2', ?_, ?_⟩
      · rw [hhd]
        have := hsmall hd (by simp)
        omega
      · intro l hl
        rw [hhd]
        exact hmm l hl hd (by simp)
    rw [this] at hv
    exact absurd hv (by simp)
  · obtain ⟨hm, hn, hlen⟩ := (validShape_iff cs).mp hv
    constructor
    · intro habs
      rw [gelman_rubin_checked, hv] at habs
      by_cases hw : W cs = 0 <;> simp [hw] at habs
    · intro habs
      rcases habs with h1 | ⟨l, hl, hl2⟩ | ⟨l₁, h₁, l₂, h₂, hne⟩
      · omega
      · rw [hlen l hl] at hl2
        omega
      · rw [hlen l₁ h₁, hlen l₂ h₂] at hne
        exact absurd rfl hne

/-- Claim C4: on an otherwise-valid ChainSet whose within-chain variance W
is exactly zero, the validated Gelman-Rubin calculator reports the
UndefinedDiagnostic condition instead of dividing by zero or producing a
garbage value. -/
theorem gelman_rubin_checked_zero_within (cs : List (List ℝ))
    (hv : validShape cs = true) (hw : W cs = 0) :
    gelman_rubin_checked cs = .error .undefinedDiagnostic := by
  rw [gelman_rubin_checked, hv]
  simp [hw]

/-- Witness for C4: the scenario m = 2, n = 3, chains [1,1,1] and
[100,100,100] has W = 0 and takes the UndefinedDiagnostic path. -/
theorem gelman_rubin_checked_zero_within_witness :
    gelman_rubin_checked [[(1:ℝ),1,1],[100,100,100]] =
      .error .undefinedDiagnostic :=
  gelman_rubin_checked_zero_within [[(1:ℝ),1,1],[100,100,100]] rfl
    (by norm_num [W, mean, sampleVariance])

/-- Claim C5: R-hat is always nonnegative, and for two ChainSets of equal
chain length n ≥ 2 with identical positive within-chain variance W, a
strictly larger between-chain variance B gives a strictly larger R-hat. -/
theorem gelman_rubin_nonneg_and_mono :
    (∀ cs : List (List ℝ), 0 ≤ gelman_rubin cs) ∧
    (∀ cs₁ cs₂ : List (List ℝ), 2 ≤ cs₁.length → 2 ≤ chainLen cs₁ →
      chainLen cs₁ = chainLen cs₂ → W cs₁ = W cs₂ → 0 < W cs₁ →
      B cs₁ < B cs₂ → gelman_rubin cs₁ < gelman_rubin cs₂) := by
  refine ⟨fun cs => Real.sqrt_nonneg _, fun cs₁ cs₂ hm hn2 hn hWeq hWpos hBlt => ?_⟩
  exact gelman_rubin_strict_mono cs₁ cs₂ hn hn2 hWeq hWpos
    (B_nonneg cs₁ (by omega)) hBlt

/-- Witness for C5: the ChainSets [[1,2,3],[1,2,3]] and [[1,2,3],[2,3,4]]
share W = 1 while B grows from 0 to 3/2, and R-hat strictly increases. -/
theorem gelman_rubin_nonneg_and_mono_witness :
    gelman_rubin [[(1:ℝ),2,3],[1,2,3]] < gelman_rubin [[(1:ℝ),2,3],[2,3,4]] :=
  gelman_rubin_nonneg_and_mono.2 [[(1:ℝ),2,3],[1,2,3]] [[(1:ℝ),2,3],[2,3,4]]
    (by norm_num) (by norm_num [chainLen]) rfl
    (by norm_num [W, mean, sampleVariance])
    (by norm_num [W, mean, sampleVariance])
    (by norm_num [B, mean, grandMean, chainLen])

/-- Claim C6: for every chain and parameters, the Geweke calculator returns
an ordered sequence of exactly `intervals` (start-index, z-score) pairs,
one per evenly spaced starting point, each z-score being the difference
between the early-segment mean and the late-segment mean divided by the
square root of the sum of the two segments' spectral-density-at-zero
estimates. -/
theorem geweke_zscore_sequence (S : List ℝ → ℝ) (f la : ℝ) (i : ℕ)
    (x : List ℝ) :
    (geweke S f la i x).length = i ∧
    geweke S f la i x = (List.range i).map (fun k =>
      (k * ((x.length - ⌊la * (x.length : ℝ)⌋₊) - ⌊f * (x.length : ℝ)⌋₊)
          / (i - 1),
       (mean ((x.drop (k * ((x.length - ⌊la * (x.length : ℝ)⌋₊) -
           ⌊f * (x.length : ℝ)⌋₊) / (i - 1))).take ⌊f * (x.length : ℝ)⌋₊) -
         mean (x.drop (x.length - ⌊la * (x.length : ℝ)⌋₊))) /
       Real.sqrt (S ((x.drop (k * ((x.length - ⌊la * (x.length : ℝ)⌋₊) -
           ⌊f * (x.length : ℝ)⌋₊) / (i - 1))).take ⌊f * (x.length : ℝ)⌋₊) +
         S (x.drop (x.length - ⌊la * (x.length : ℝ)⌋₊))))) := by
  constructor
  · simp [geweke]
  · rfl

/-- Claim C9: the validated Geweke calculator rejects with InvalidInput a
segment fraction that is non-positive or exceeds 1, or an early or late
segment that would be empty for the given chain length; under the
precondition first, last ∈ (0,1), intervals ≥ 1 and nonempty windows, it
succeeds with the z-score sequence. -/
theorem geweke_checked_error_conditions (S : List ℝ → ℝ) (f la : ℝ) (i : ℕ)
    (x : List ℝ) :
    ((f ≤ 0 ∨ la ≤ 0 ∨ 1 < f ∨ 1 < la ∨ ⌊f * (x.length : ℝ)⌋₊ = 0 ∨
        ⌊la * (x.length : ℝ)⌋₊ = 0) →
      geweke_checked S f la i x = .error .invalidInput) ∧
    (0 < f → f < 1 → 0 < la → la < 1 → 1 ≤ i →
      1 ≤ ⌊f * (x.length : ℝ)⌋₊ → 1 ≤ ⌊la * (x.length : ℝ)⌋₊ →
      geweke_checked S f la i x = .ok (geweke S f la i x)) := by
  constructor
  · intro h
    rw [geweke_checked, if_pos h]
  · intro h1 h2 h3 h4 h5 h6 h7
    rw [geweke_checked, if_neg]
    push_neg
    exact ⟨h1, h3, h2.le, h4.le, by omega, by omega⟩

/-- Witness for C9: with fractions 1/2 and 1/2 on a chain of 10 samples
the validated Geweke calculator succeeds. -/
theorem geweke_checked_error_conditions_witness :
    geweke_checked (fun _ => 1) (1/2 : ℝ) (1/2 : ℝ) 2
        [(1:ℝ),2,3,4,5,6,7,8,9,10] =
      .ok (geweke (fun _ => 1) (1/2 : ℝ) (1/2 : ℝ) 2
        [(1:ℝ),2,3,4,5,6,7,8,9,10]) :=
  (geweke_checked_error_conditions (fun _ => 1) (1/2 : ℝ) (1/2 : ℝ) 2
      [(1:ℝ),2,3,4,5,6,7,8,9,10]).2
    (by norm_num) (by norm_num) (by norm_num) (by norm_num) (by norm_num)
    (by norm_num) (by norm_num)

/-- Claim C7: the Gelman-Rubin calculator returns the same R-hat after a
uniform additive shift of every sample in every chain. -/
theorem gelman_rubin_shift_invariant (cs : List (List ℝ)) (c : ℝ)
    (hcs : cs ≠ []) (hne : ∀ l ∈ cs, l ≠ []) :
    gelman_rubin (cs.map (fun l => l.map (fun x => x + c))) =
      gelman_rubin cs :=
  gelman_rubin_shift cs c hcs hne

/-- Witness for C7: shifting the ChainSet [[1,2],[3,4]] by 5 leaves R-hat
unchanged. -/
theorem gelman_rubin_shift_invariant_witness :
    gelman_rubin ([[(1:ℝ),2],[3,4]].map (fun l => l.map (fun x => x + 5))) =
      gelman_rubin [[(1:ℝ),2],[3,4]] :=
  gelman_rubin_shift_invariant [[(1:ℝ),2],[3,4]] 5 (by simp) (by
    intro l hl
    rcases List.mem_cons.mp hl with rfl | hl
    · simp
    · rcases List.mem_cons.mp hl with rfl | hl
      · simp
      · simp at hl)

/-- Claim C8: the Gelman-Rubin calculator returns the same R-hat on any
permutation of the chains of a ChainSet whose chains all share the common
length. -/
theorem gelman_rubin_perm_invariant (cs₁ cs₂ : List (List ℝ))
    (hp : cs₁.Perm cs₂) (hlen : ∀ l ∈ cs₁, l.length = chainLen cs₁) :
    gelman_rubin cs₂ = gelman_rubin cs₁ := by
  rw [gelman_rubin, gelman_rubin, varHat, varHat, chainLen_perm hp hlen,
    W_perm hp, B_perm hp hlen]

/-- Witness for C8: swapping the two chains of [[1,2],[3,4]] leaves R-hat
unchanged. -/
theorem gelman_rubin_perm_invariant_witness :
    gelman_rubin [[(3:ℝ),4],[1,2]] = gelman_rubin [[(1:ℝ),2],[3,4]] :=
  gelman_rubin_perm_invariant [[(1:ℝ),2],[3,4]] [[(3:ℝ),4],[1,2]]
    (List.Perm.swap _ _ _) (by
      intro l hl
      rcases List.mem_cons.mp hl with rfl | hl
      · rfl
      · rcases List.mem_cons.mp hl with rfl | hl
        · rfl
        · simp at hl)

/-- Claim C10: the notebook's invlogit returns exp(x)/(1+exp(x)), a value
strictly between 0 and 1, so every death probability it supplies to the
Binomial likelihood is a valid probability. -/
theorem invlogit_valid_probability (x : ℝ) :
    invlogit x = Real.exp x / (1 + Real.exp x) ∧
      0 < invlogit x ∧ invlogit x < 1 := by
  refine ⟨rfl, div_pos (Real.exp_pos x) (by positivity), ?_⟩
  rw [invlogit, div_lt_one (by positivity)]
  linarith [Real.exp_pos x]

end ModelChecking
